import Mathlib

/-!
Verification of the HyperERC721 contract (src/contracts/HyperERC721.sol).

The contract state is embedded as a Lean structure; every uint256 is a `Nat`
with explicit bound guards where Solidity checked arithmetic could revert
(Solidity 0.8 reverts on overflow of an addition or multiplication and on
underflow of a subtraction).  Every external function becomes a Lean
function `State → args → Except Err State` (or a pure view); `Except.error`
models a revert, which in the EVM leaves the state unchanged.  Reverting
requires with a message become `Err.Msg`; the custom errors of the inherited
library extensions become dedicated `Err` constructors.  The keccak256
string comparison in `tokenURI` is modelled as plain string equality, which
is what it computes for honest (collision-free) inputs.
-/

namespace HyperERC721

/-- Account addresses, with `0` standing for the zero address. -/
abbrev Address := Nat

/-- The modulus of uint256 arithmetic. -/
def UINT256_MOD : Nat := 2 ^ 256

/-- Revert reasons observable from the contract: the ownable and token
library custom errors, checked-arithmetic panics, and `require` messages. -/
inductive Err where
  | OwnableUnauthorizedAccount
  | ERC721NonexistentToken (tokenId : Nat)
  | ERC721InvalidReceiver
  | ERC721InvalidSender
  | EnforcedPause
  | ExpectedPause
  | ArithmeticPanic
  | Msg (m : String)
deriving DecidableEq

/-- The contract storage of HyperERC721, together with the storage of the
inherited extensions that the claims depend on: `owners` is the ERC721
owner mapping (`none` = token does not exist), `tokenURIs` is the
per-token URI mapping of ERC721URIStorage, `paused` the Pausable flag,
`owner` the Ownable authority, `balance` the native-coin balance held by
the contract. -/
structure State where
  owner : Address
  name : String
  symbol : String
  nextTokenId : Nat
  maxSupply : Nat
  publicMintPrice : Nat
  maxMintsPerAddress : Nat
  publicMintEnabled : Bool
  baseTokenURI : String
  useJsonExtension : Bool
  royaltyRecipient : Address
  royaltyFeeBps : Nat
  mintsPerAddress : Address → Nat
  owners : Nat → Option Address
  tokenURIs : Nat → Option String
  paused : Bool
  balance : Nat

/-- The constructor (HyperERC721.sol lines 46-66): records the collection
parameters, starts token IDs at 1, and sets the default public-mint
settings (price 0.01 HYPE = 10^16 wei, 10 mints per address, disabled). -/
def deploy (deployer : Address) (name symbol : String) (maxSupply_ : Nat)
    (baseURI : String) (royaltyRecipient_ : Address) (royaltyFeeBps_ : Nat)
    (useJsonExtension_ : Bool) : State :=
  { owner := deployer
    name := name
    symbol := symbol
    nextTokenId := 1
    maxSupply := maxSupply_
    publicMintPrice := 10 ^ 16
    maxMintsPerAddress := 10
    publicMintEnabled := false
    baseTokenURI := baseURI
    useJsonExtension := useJsonExtension_
    royaltyRecipient := royaltyRecipient_
    royaltyFeeBps := royaltyFeeBps_
    mintsPerAddress := fun _ => 0
    owners := fun _ => none
    tokenURIs := fun _ => none
    paused := false
    balance := 0 }

/-- Decimal rendering of a uint256, embedding `Strings.toString` from the
OpenZeppelin `Strings` library (`tokenId.toString()` in the source). -/
def decimalString (n : Nat) : String := toString n

/-- Modelled from the spec: the per-token override lookup that the resolver
delegates to the external storage extension (`ERC721URIStorage.tokenURI`),
which is library code outside this repository.  Spec section 4.1 steps 2-4
and section 9: the lookup yields the stored override when one was explicitly
set, and otherwise materializes the default value `derived`
(`baseURI ++ decimalString tokenId`) when the base URI is non-empty, or the
empty string when the base URI is empty. -/
def parentTokenURI (s : State) (tokenId : Nat) : String :=
  match s.tokenURIs tokenId with
  | some o => o
  | none => if s.baseTokenURI = "" then "" else s.baseTokenURI ++ decimalString tokenId

/-- `tokenURI` (HyperERC721.sol lines 215-248): requires the token to be
owned, returns the parent URI outright when the base URI is empty, returns
the parent URI when it differs from `baseURI ++ tokenId` (an individual
override), and otherwise builds `baseURI ++ tokenId` with an optional
`.json` suffix according to the `useJsonExtension` flag. -/
def tokenURI (s : State) (tokenId : Nat) : Except Err String :=
  if (s.owners tokenId).isNone then .error (Err.ERC721NonexistentToken tokenId)
  else if s.baseTokenURI = "" then .ok (parentTokenURI s tokenId)
  else if parentTokenURI s tokenId ≠ s.baseTokenURI ++ decimalString tokenId then
    .ok (parentTokenURI s tokenId)
  else if s.useJsonExtension then .ok (s.baseTokenURI ++ decimalString tokenId ++ (".json"))
  else .ok (s.baseTokenURI ++ decimalString tokenId)

/-- `setBaseURI` (lines 107-109): owner-gated assignment of the base URI. -/
def setBaseURI (s : State) (caller : Address) (baseURI : String) : Except Err State :=
  if caller ≠ s.owner then .error (Err.OwnableUnauthorizedAccount)
  else .ok { s with baseTokenURI := baseURI }

/-- `setJsonExtension` (lines 115-117): owner-gated assignment of the
JSON-extension flag. -/
def setJsonExtension (s : State) (caller : Address) (useExtension : Bool) : Except Err State :=
  if caller ≠ s.owner then .error (Err.OwnableUnauthorizedAccount)
  else .ok { s with useJsonExtension := useExtension }

/-- `setPublicMintSettings` (lines 125-129). -/
def setPublicMintSettings (s : State) (caller : Address) (enabled : Bool)
    (price maxPerAddress : Nat) : Except Err State :=
  if caller ≠ s.owner then .error (Err.OwnableUnauthorizedAccount)
  else .ok { s with publicMintEnabled := enabled, publicMintPrice := price,
                    maxMintsPerAddress := maxPerAddress }

/-- `setRoyaltyInfo` (lines 136-140): owner-gated, caps the fee at 1000
basis points. -/
def setRoyaltyInfo (s : State) (caller : Address) (recipient : Address)
    (feeBps : Nat) : Except Err State :=
  if caller ≠ s.owner then .error (Err.OwnableUnauthorizedAccount)
  else if ¬ (feeBps ≤ 1000) then .error (Err.Msg ("Royalty fee too high"))
  else .ok { s with royaltyRecipient := recipient, royaltyFeeBps := feeBps }

/-- `withdraw` (lines 145-149): owner-gated transfer of the whole balance
to the owner. -/
def withdraw (s : State) (caller : Address) : Except Err State :=
  if caller ≠ s.owner then .error (Err.OwnableUnauthorizedAccount)
  else if ¬ (0 < s.balance) then .error (Err.Msg ("No funds to withdraw"))
  else .ok { s with balance := 0 }

/-- `pause` (lines 154-156): owner-gated; `_pause` reverts when already
paused. -/
def pause (s : State) (caller : Address) : Except Err State :=
  if caller ≠ s.owner then .error (Err.OwnableUnauthorizedAccount)
  else if s.paused then .error (Err.EnforcedPause)
  else .ok { s with paused := true }

/-- `unpause` (lines 161-163): owner-gated; `_unpause` reverts when not
paused. -/
def unpause (s : State) (caller : Address) : Except Err State :=
  if caller ≠ s.owner then .error (Err.OwnableUnauthorizedAccount)
  else if ¬ s.paused then .error (Err.ExpectedPause)
  else .ok { s with paused := false }

/-- `totalMinted` (lines 175-177): `_nextTokenId - 1`. -/
def totalMinted (s : State) : Nat := s.nextTokenId - 1

/-- `royaltyInfo` (lines 189-197): returns the royalty recipient and
`salePrice * royaltyFeeBps / 10000`, with the checked uint256
multiplication guarded. -/
def royaltyInfo (s : State) (_tokenId salePrice : Nat) : Except Err (Address × Nat) :=
  if UINT256_MOD ≤ salePrice * s.royaltyFeeBps then .error (Err.ArithmeticPanic)
  else .ok ((s.royaltyRecipient, salePrice * s.royaltyFeeBps / 10000))

/-- The state after a transaction: a revert leaves the state unchanged. -/
def txResult (s : State) (r : Except Err State) : State :=
  match r with
  | .ok s' => s'
  | .error _ => s

/-- Modelled from the spec: `_safeMint` of the inherited audited token
library (outside this repository; the spec assumes the inherited standard
token behaviors correct as provided).  Minting records `to_` as the owner of
`tokenId`; it reverts on a paused contract (the `_update` override chain
includes ERC721Pausable), on the zero receiver, and on an already-minted
token id. -/
def safeMint (s : State) (to_ : Address) (tokenId : Nat) : Except Err State :=
  if s.paused then .error (Err.EnforcedPause)
  else if to_ = 0 then .error (Err.ERC721InvalidReceiver)
  else if (s.owners tokenId).isSome then .error (Err.ERC721InvalidSender)
  else .ok { s with owners := fun t => if t = tokenId then some to_ else s.owners t }

/-- The state produced by one iteration of the minting loop that does not
revert: the counter advanced and the old counter value owned by `to_`
(shorthand used by the proofs below). -/
def mintOne (s : State) (to_ : Address) : State :=
  { s with nextTokenId := s.nextTokenId + 1,
           owners := fun t => if t = s.nextTokenId then some to_ else s.owners t }

/-- The minting loop shared by `mint` and `publicMint` (lines 76-80 and
96-100): each iteration reads `_nextTokenId`, increments it, and calls
`_safeMint` with the value read. -/
def mintLoop (to_ : Address) : Nat → State → Except Err State
  | 0, s => .ok s
  | q + 1, s =>
    match safeMint { s with nextTokenId := s.nextTokenId + 1 } to_ s.nextTokenId with
    | .error e => .error e
    | .ok s2 => mintLoop to_ q s2

/-- `mint` (lines 73-81): owner-gated batch mint.  The supply `require`
computes `_nextTokenId + quantity - 1` in checked uint256 arithmetic, so
the guarded overflow of the addition (and the underflow of the subtraction
when both terms are zero) revert with a panic. -/
def mint (s : State) (caller to_ : Address) (quantity : Nat) : Except Err State :=
  if caller ≠ s.owner then .error (Err.OwnableUnauthorizedAccount)
  else if UINT256_MOD ≤ s.nextTokenId + quantity then .error (Err.ArithmeticPanic)
  else if s.nextTokenId + quantity = 0 then .error (Err.ArithmeticPanic)
  else if ¬ (s.nextTokenId + quantity - 1 ≤ s.maxSupply) then
    .error (Err.Msg ("Exceeds maximum supply"))
  else mintLoop to_ quantity s

/-- `publicMint` (lines 87-101): pause-gated payable mint with the enabled,
quantity, supply, per-address, and payment checks in source order; on
success it credits `mintsPerAddress` and the received value before the
minting loop. -/
def publicMint (s : State) (caller : Address) (value quantity : Nat) : Except Err State :=
  if s.paused then .error (Err.EnforcedPause)
  else if ¬ s.publicMintEnabled then .error (Err.Msg ("Public mint not enabled"))
  else if ¬ (0 < quantity) then .error (Err.Msg ("Quantity must be greater than 0"))
  else if UINT256_MOD ≤ s.nextTokenId + quantity then .error (Err.ArithmeticPanic)
  else if s.nextTokenId + quantity = 0 then .error (Err.ArithmeticPanic)
  else if ¬ (s.nextTokenId + quantity - 1 ≤ s.maxSupply) then
    .error (Err.Msg ("Exceeds maximum supply"))
  else if UINT256_MOD ≤ s.mintsPerAddress caller + quantity then .error (Err.ArithmeticPanic)
  else if ¬ (s.mintsPerAddress caller + quantity ≤ s.maxMintsPerAddress) then
    .error (Err.Msg ("Exceeds max mints per address"))
  else if UINT256_MOD ≤ s.publicMintPrice * quantity then .error (Err.ArithmeticPanic)
  else if value < s.publicMintPrice * quantity then .error (Err.Msg ("Insufficient payment"))
  else mintLoop caller quantity
    { s with mintsPerAddress :=
               fun a => if a = caller then s.mintsPerAddress a + quantity else s.mintsPerAddress a,
             balance := s.balance + value }

/-- Modelled from the spec: the inherited standard token transfer
(`transferFrom` of the external audited library; the spec treats the
inherited token behaviors as out of scope and correct).  It moves an
existing token from its owner to a non-zero recipient while the pause gate
is open; approval bookkeeping is irrelevant to the claims and omitted. -/
def transferFrom (s : State) (from_ to_ : Address) (tokenId : Nat) : Except Err State :=
  if s.paused then .error (Err.EnforcedPause)
  else if to_ = 0 then .error (Err.ERC721InvalidReceiver)
  else if s.owners tokenId ≠ some from_ then .error (Err.ERC721InvalidSender)
  else .ok { s with owners := fun t => if t = tokenId then some to_ else s.owners t }

/-- One successful externally triggered state transition of the contract:
any of its state-changing entry points returning without a revert.  A
reverted call leaves the state unchanged and therefore yields no new
state. -/
inductive Step : State → State → Prop where
  | mint (s s' : State) (caller to_ : Address) (q : Nat) :
      mint s caller to_ q = .ok s' → Step s s'
  | publicMint (s s' : State) (caller : Address) (value q : Nat) :
      publicMint s caller value q = .ok s' → Step s s'
  | setBaseURI (s s' : State) (caller : Address) (b : String) :
      setBaseURI s caller b = .ok s' → Step s s'
  | setJsonExtension (s s' : State) (caller : Address) (f : Bool) :
      setJsonExtension s caller f = .ok s' → Step s s'
  | setPublicMintSettings (s s' : State) (caller : Address) (e : Bool) (p m : Nat) :
      setPublicMintSettings s caller e p m = .ok s' → Step s s'
  | setRoyaltyInfo (s s' : State) (caller recipient : Address) (feeBps : Nat) :
      setRoyaltyInfo s caller recipient feeBps = .ok s' → Step s s'
  | withdraw (s s' : State) (caller : Address) :
      withdraw s caller = .ok s' → Step s s'
  | pause (s s' : State) (caller : Address) :
      pause s caller = .ok s' → Step s s'
  | unpause (s s' : State) (caller : Address) :
      unpause s caller = .ok s' → Step s s'
  | transferFrom (s s' : State) (from_ to_ : Address) (tokenId : Nat) :
      transferFrom s from_ to_ tokenId = .ok s' → Step s s'

/-- The states the contract can reach: a freshly deployed state followed by
any sequence of successful transitions. -/
inductive Reachable : State → Prop where
  | deployed (deployer : Address) (name symbol : String) (maxSupply_ : Nat)
      (baseURI : String) (royaltyRecipient_ : Address) (royaltyFeeBps_ : Nat)
      (useJsonExtension_ : Bool) :
      Reachable (deploy deployer name symbol maxSupply_ baseURI royaltyRecipient_
        royaltyFeeBps_ useJsonExtension_)
  | step (s s' : State) : Reachable s → Step s s' → Reachable s'

/-- The token-id bookkeeping invariant: ids start at 1, the number of
minted tokens never exceeds the maximum supply, and every existing token
has an id in `[1, nextTokenId)`. -/
def Inv (s : State) : Prop :=
  1 ≤ s.nextTokenId ∧ s.nextTokenId - 1 ≤ s.maxSupply ∧
    ∀ t, (s.owners t).isSome = true → 1 ≤ t ∧ t < s.nextTokenId

/-- The deployment of the test suite (part_000 of the repository tests):
collection of 1000 tokens, base URI `https://api.test.com/metadata/`, the
JSON-extension flag on, deployer = owner = royalty recipient = address 1. -/
def testDeploy : State :=
  deploy 1 ("Test NFT Collection") ("TNC") 1000 ("https://api.test.com/metadata/") 1 500 true

/-- The test deployment after the owner mints token 1 to address 2. -/
def testMinted : State := txResult testDeploy (mint testDeploy 1 2 1)

/-- The test deployment with token 1 minted and the JSON-extension flag
toggled off by the owner. -/
def testToggled : State := txResult testMinted (setJsonExtension testMinted 1 false)

/-- The test deployment with token 1 minted and a distinct per-token
override recorded for it by the external storage extension. -/
def overrideState : State :=
  { testMinted with
    tokenURIs := fun t => if t = 1 then some ("ipfs://custom/1.json") else none }

/-- The test deployment with token 1 minted and a per-token override equal
to `baseURI ++ decimalString 1` recorded for it. -/
def overrideDerivedState : State :=
  { testMinted with
    tokenURIs := fun t =>
      if t = 1 then some (testMinted.baseTokenURI ++ decimalString 1) else none }

/-- A state with an empty base URI, token 1 minted, and a per-token
override that coincides with `baseTokenURI ++ decimalString 1` (that is,
with `decimalString 1` itself). -/
def overrideClashState : State :=
  { testMinted with
    baseTokenURI := "",
    tokenURIs := fun t => if t = 1 then some (decimalString 1) else none }

/-- A state with an empty base URI, token 1 minted, and no override. -/
def emptyBaseState : State := { testMinted with baseTokenURI := "" }

theorem safeMint_ok {s : State} {to_ : Address} {tokenId : Nat} {s' : State}
    (h : safeMint s to_ tokenId = Except.ok s') :
    s.paused = false ∧ to_ ≠ 0 ∧ (s.owners tokenId).isSome = false ∧
      s' = { s with owners := fun t => if t = tokenId then some to_ else s.owners t } := by
  by_cases hp : s.paused = true
  · simp [safeMint, hp] at h
  · by_cases hz : to_ = 0
    · simp [safeMint, hp, hz] at h
    · by_cases ho : (s.owners tokenId).isSome = true
      · simp [safeMint, hp, hz, ho] at h
      · have hp' : s.paused = false := by simpa using hp
        have ho' : (s.owners tokenId).isSome = false := by simpa using ho
        refine ⟨hp', hz, ho', ?_⟩
        rw [hp']
        simpa [safeMint, hp', hz, ho'] using h.symm

theorem mintLoop_ok {to_ : Address} (q : Nat) :
    ∀ s s' : State, mintLoop to_ q s = Except.ok s' →
      s'.nextTokenId = s.nextTokenId + q ∧
      (∀ t, t < s.nextTokenId → s'.owners t = s.owners t) ∧
      (∀ t, s.nextTokenId + q ≤ t → s'.owners t = s.owners t) ∧
      (∀ i, i < q → s'.owners (s.nextTokenId + i) = some to_) ∧
      s'.maxSupply = s.maxSupply ∧ s'.owner = s.owner ∧ s'.paused = s.paused ∧
      s'.baseTokenURI = s.baseTokenURI ∧ s'.useJsonExtension = s.useJsonExtension ∧
      s'.tokenURIs = s.tokenURIs := by
  induction q with
  | zero =>
    intro s s' h
    simp only [mintLoop] at h
    cases h
    exact ⟨rfl, fun _ _ => rfl, fun _ _ => rfl, fun i hi => absurd hi (Nat.not_lt_zero i),
      rfl, rfl, rfl, rfl, rfl, rfl⟩
  | succ q ih =>
    intro s s' h
    rw [mintLoop] at h
    cases hsm : safeMint { s with nextTokenId := s.nextTokenId + 1 } to_ s.nextTokenId with
    | error e => rw [hsm] at h; cases h
    | ok s2 =>
      rw [hsm] at h
      obtain ⟨-, -, ho, hs2⟩ := safeMint_ok hsm
      obtain ⟨ihn, ihlow, ihhigh, ihmid, ihmax, ihowner, ihpause, ihbase, ihjson, ihuris⟩ :=
        ih s2 s' h
      subst hs2
      simp only at ihn ihlow ihhigh ihmid
      refine ⟨by omega, ?_, ?_, ?_, ihmax, ihowner, ihpause, ihbase, ihjson, ihuris⟩
      · intro t ht
        have h1 : s'.owners t = if t = s.nextTokenId then some to_ else s.owners t :=
          ihlow t (by omega)
        rw [h1, if_neg (by omega)]
      · intro t ht
        have h1 : s'.owners t = if t = s.nextTokenId then some to_ else s.owners t :=
          ihhigh t (by omega)
        rw [h1, if_neg (by omega)]
      · intro i hi
        match i, hi with
        | 0, _ =>
          have h1 : s'.owners (s.nextTokenId + 0) =
              if s.nextTokenId + 0 = s.nextTokenId then some to_ else s.owners (s.nextTokenId + 0) :=
            ihlow (s.nextTokenId + 0) (by omega)
          rw [h1, if_pos (by omega)]
        | j + 1, hj =>
          have h1 := ihmid j (by omega)
          have h2 : s.nextTokenId + 1 + j = s.nextTokenId + (j + 1) := by omega
          rw [h2] at h1
          exact h1

theorem mint_ok {s : State} {caller to_ : Address} {q : Nat} {s' : State}
    (h : mint s caller to_ q = Except.ok s') :
    caller = s.owner ∧ s.nextTokenId + q < UINT256_MOD ∧ 0 < s.nextTokenId + q ∧
      s.nextTokenId + q - 1 ≤ s.maxSupply ∧ mintLoop to_ q s = Except.ok s' := by
  by_cases h1 : caller = s.owner
  · by_cases h2 : UINT256_MOD ≤ s.nextTokenId + q
    · simp [mint, h1, h2] at h
    · by_cases h3 : s.nextTokenId + q = 0
      · simp [mint, h1, h2, h3] at h
      · by_cases h4 : s.nextTokenId + q - 1 ≤ s.maxSupply
        · simp only [mint, h1, h2, h3, h4] at h
          refine ⟨h1, by omega, by omega, h4, ?_⟩
          simpa [h1, h2, h3, h4] using h
        · simp [mint, h1, h2, h3, h4] at h
  · simp [mint, h1] at h

theorem publicMint_ok {s : State} {caller : Address} {value q : Nat} {s' : State}
    (h : publicMint s caller value q = Except.ok s') :
    s.paused = false ∧ s.publicMintEnabled = true ∧ 0 < q ∧
      s.nextTokenId + q < UINT256_MOD ∧ s.nextTokenId + q - 1 ≤ s.maxSupply ∧
      s'.nextTokenId = s.nextTokenId + q ∧
      (∀ t, t < s.nextTokenId → s'.owners t = s.owners t) ∧
      (∀ t, s.nextTokenId + q ≤ t → s'.owners t = s.owners t) ∧
      (∀ i, i < q → s'.owners (s.nextTokenId + i) = some caller) ∧
      s'.maxSupply = s.maxSupply ∧ s'.baseTokenURI = s.baseTokenURI ∧
      s'.tokenURIs = s.tokenURIs := by
  by_cases c1 : s.paused = true
  · simp [publicMint, c1] at h
  · by_cases c2 : s.publicMintEnabled = true
    · by_cases c3 : 0 < q
      · by_cases c4 : UINT256_MOD ≤ s.nextTokenId + q
        · simp [publicMint, c1, c2, c3, c4] at h
        · by_cases c5 : s.nextTokenId + q = 0
          · simp [publicMint, c1, c2, c3, c4, c5] at h
          · by_cases c6 : s.nextTokenId + q - 1 ≤ s.maxSupply
            · by_cases c7 : UINT256_MOD ≤ s.mintsPerAddress caller + q
              · simp [publicMint, c1, c2, c3, c4, c5, c6, c7] at h
              · by_cases c8 : s.mintsPerAddress caller + q ≤ s.maxMintsPerAddress
                · by_cases c9 : UINT256_MOD ≤ s.publicMintPrice * q
                  · simp [publicMint, c1, c2, c3, c4, c5, c6, c7, c8, c9] at h
                  · by_cases c10 : value < s.publicMintPrice * q
                    · simp [publicMint, c1, c2, c3, c4, c5, c6, c7, c8, c9, c10] at h
                    · simp [publicMint, c1, c2, c3, c4, c5, c6, c7, c8, c9, c10] at h
                      obtain ⟨hn, hlow, hhigh, hmid, hmax, -, -, hbase, -, huris⟩ :=
                        mintLoop_ok q _ s' h
                      simp only at hn hlow hhigh hmid hmax hbase huris
                      exact ⟨by simpa using c1, c2, c3, by omega, c6, hn, hlow, hhigh, hmid,
                        hmax, hbase, huris⟩
                · simp [publicMint, c1, c2, c3, c4, c5, c6, c7, c8] at h
            · simp [publicMint, c1, c2, c3, c4, c5, c6] at h
      · simp [publicMint, c1, c2, c3] at h
    · simp [publicMint, c1, c2] at h

theorem setBaseURI_ok {s : State} {caller : Address} {b : String} {s' : State}
    (h : setBaseURI s caller b = Except.ok s') :
    caller = s.owner ∧ s' = { s with baseTokenURI := b } := by
  by_cases h1 : caller = s.owner
  · refine ⟨h1, ?_⟩
    simpa [setBaseURI, h1] using h.symm
  · simp [setBaseURI, h1] at h

theorem setJsonExtension_ok {s : State} {caller : Address} {f : Bool} {s' : State}
    (h : setJsonExtension s caller f = Except.ok s') :
    caller = s.owner ∧ s' = { s with useJsonExtension := f } := by
  by_cases h1 : caller = s.owner
  · refine ⟨h1, ?_⟩
    simpa [setJsonExtension, h1] using h.symm
  · simp [setJsonExtension, h1] at h

theorem setPublicMintSettings_ok {s : State} {caller : Address} {e : Bool} {p m : Nat}
    {s' : State} (h : setPublicMintSettings s caller e p m = Except.ok s') :
    caller = s.owner ∧
      s' = { s with publicMintEnabled := e, publicMintPrice := p,
                    maxMintsPerAddress := m } := by
  by_cases h1 : caller = s.owner
  · refine ⟨h1, ?_⟩
    simpa [setPublicMintSettings, h1] using h.symm
  · simp [setPublicMintSettings, h1] at h

theorem setRoyaltyInfo_ok {s : State} {caller recipient : Address} {feeBps : Nat}
    {s' : State} (h : setRoyaltyInfo s caller recipient feeBps = Except.ok s') :
    caller = s.owner ∧ feeBps ≤ 1000 ∧
      s' = { s with royaltyRecipient := recipient, royaltyFeeBps := feeBps } := by
  by_cases h1 : caller = s.owner
  · by_cases h2 : feeBps ≤ 1000
    · refine ⟨h1, h2, ?_⟩
      simpa [setRoyaltyInfo, h1, h2] using h.symm
    · simp [setRoyaltyInfo, h1, h2] at h
  · simp [setRoyaltyInfo, h1] at h

theorem withdraw_ok {s : State} {caller : Address} {s' : State}
    (h : withdraw s caller = Except.ok s') :
    caller = s.owner ∧ s' = { s with balance := 0 } := by
  by_cases h1 : caller = s.owner
  · by_cases h2 : 0 < s.balance
    · refine ⟨h1, ?_⟩
      simpa [withdraw, h1, h2] using h.symm
    · simp [withdraw, h1, h2] at h
  · simp [withdraw, h1] at h

theorem pause_ok {s : State} {caller : Address} {s' : State}
    (h : pause s caller = Except.ok s') :
    caller = s.owner ∧ s' = { s with paused := true } := by
  by_cases h1 : caller = s.owner
  · by_cases h2 : s.paused = true
    · simp [pause, h1, h2] at h
    · refine ⟨h1, ?_⟩
      simpa [pause, h1, h2] using h.symm
  · simp [pause, h1] at h

theorem unpause_ok {s : State} {caller : Address} {s' : State}
    (h : unpause s caller = Except.ok s') :
    caller = s.owner ∧ s' = { s with paused := false } := by
  by_cases h1 : caller = s.owner
  · by_cases h2 : s.paused = true
    · refine ⟨h1, ?_⟩
      simpa [unpause, h1, h2] using h.symm
    · simp [unpause, h1, h2] at h
  · simp [unpause, h1] at h

theorem transferFrom_ok {s : State} {from_ to_ : Address} {tokenId : Nat} {s' : State}
    (h : transferFrom s from_ to_ tokenId = Except.ok s') :
    s.paused = false ∧ to_ ≠ 0 ∧ s.owners tokenId = some from_ ∧
      s' = { s with owners := fun t => if t = tokenId then some to_ else s.owners t } := by
  by_cases h1 : s.paused = true
  · simp [transferFrom, h1] at h
  · by_cases h2 : to_ = 0
    · simp [transferFrom, h1, h2] at h
    · by_cases h3 : s.owners tokenId = some from_
      · have hp' : s.paused = false := by simpa using h1
        refine ⟨hp', h2, h3, ?_⟩
        rw [hp']
        simpa [transferFrom, hp', h2, h3] using h.symm
      · simp [transferFrom, h1, h2, h3] at h

theorem step_inv {s s' : State} (hs : Step s s') (hinv : Inv s) : Inv s' := by
  obtain ⟨hi1, hi2, hi3⟩ := hinv
  cases hs with
  | mint caller to_ q h =>
    obtain ⟨-, -, -, hsup, hml⟩ := mint_ok h
    obtain ⟨hn, hlow, hhigh, hmid, hmax, -⟩ := mintLoop_ok q s s' hml
    refine ⟨by omega, by omega, ?_⟩
    intro t ht
    by_cases hlt : t < s.nextTokenId
    · rw [hlow t hlt] at ht
      have := hi3 t ht
      omega
    · by_cases hge : s.nextTokenId + q ≤ t
      · rw [hhigh t hge] at ht
        have := hi3 t ht
        omega
      · omega
  | publicMint caller value q h =>
    obtain ⟨-, -, -, -, hsup, hn, hlow, hhigh, hmid, hmax, -⟩ := publicMint_ok h
    refine ⟨by omega, by omega, ?_⟩
    intro t ht
    by_cases hlt : t < s.nextTokenId
    · rw [hlow t hlt] at ht
      have := hi3 t ht
      omega
    · by_cases hge : s.nextTokenId + q ≤ t
      · rw [hhigh t hge] at ht
        have := hi3 t ht
        omega
      · omega
  | setBaseURI caller b h =>
    obtain ⟨-, rfl⟩ := setBaseURI_ok h
    exact ⟨hi1, hi2, hi3⟩
  | setJsonExtension caller f h =>
    obtain ⟨-, rfl⟩ := setJsonExtension_ok h
    exact ⟨hi1, hi2, hi3⟩
  | setPublicMintSettings caller e p m h =>
    obtain ⟨-, rfl⟩ := setPublicMintSettings_ok h
    exact ⟨hi1, hi2, hi3⟩
  | setRoyaltyInfo caller recipient feeBps h =>
    obtain ⟨-, -, rfl⟩ := setRoyaltyInfo_ok h
    exact ⟨hi1, hi2, hi3⟩
  | withdraw caller h =>
    obtain ⟨-, rfl⟩ := withdraw_ok h
    exact ⟨hi1, hi2, hi3⟩
  | pause caller h =>
    obtain ⟨-, rfl⟩ := pause_ok h
    exact ⟨hi1, hi2, hi3⟩
  | unpause caller h =>
    obtain ⟨-, rfl⟩ := unpause_ok h
    exact ⟨hi1, hi2, hi3⟩
  | transferFrom from_ to_ tokenId h =>
    obtain ⟨-, -, howned, rfl⟩ := transferFrom_ok h
    refine ⟨hi1, hi2, ?_⟩
    intro t ht
    simp only at ht
    by_cases he : t = tokenId
    · subst he
      exact hi3 t (by rw [howned]; rfl)
    · rw [if_neg he] at ht
      exact hi3 t ht

theorem reachable_inv {s : State} (h : Reachable s) : Inv s := by
  induction h with
  | deployed deployer name symbol maxSupply_ baseURI rr fee ext =>
    refine ⟨le_refl 1, by simp [deploy], ?_⟩
    intro t ht
    simp [deploy] at ht
  | step s s' _ hstep ih => exact step_inv hstep ih

theorem step_mono {s s' : State} (hs : Step s s') :
    s.nextTokenId ≤ s'.nextTokenId ∧
      ∀ t, (s.owners t).isSome = true → (s'.owners t).isSome = true := by
  cases hs with
  | mint caller to_ q h =>
    obtain ⟨-, -, -, -, hml⟩ := mint_ok h
    obtain ⟨hn, hlow, hhigh, hmid, -⟩ := mintLoop_ok q s s' hml
    refine ⟨by omega, ?_⟩
    intro t ht
    by_cases hlt : t < s.nextTokenId
    · rw [hlow t hlt]; exact ht
    · by_cases hge : s.nextTokenId + q ≤ t
      · rw [hhigh t hge]; exact ht
      · have h1 := hmid (t - s.nextTokenId) (by omega)
        have h2 : s.nextTokenId + (t - s.nextTokenId) = t := by omega
        rw [h2] at h1
        rw [h1]
        rfl
  | publicMint caller value q h =>
    obtain ⟨-, -, -, -, -, hn, hlow, hhigh, hmid, -⟩ := publicMint_ok h
    refine ⟨by omega, ?_⟩
    intro t ht
    by_cases hlt : t < s.nextTokenId
    · rw [hlow t hlt]; exact ht
    · by_cases hge : s.nextTokenId + q ≤ t
      · rw [hhigh t hge]; exact ht
      · have h1 := hmid (t - s.nextTokenId) (by omega)
        have h2 : s.nextTokenId + (t - s.nextTokenId) = t := by omega
        rw [h2] at h1
        rw [h1]
        rfl
  | setBaseURI caller b h =>
    obtain ⟨-, rfl⟩ := setBaseURI_ok h
    exact ⟨le_refl _, fun t ht => ht⟩
  | setJsonExtension caller f h =>
    obtain ⟨-, rfl⟩ := setJsonExtension_ok h
    exact ⟨le_refl _, fun t ht => ht⟩
  | setPublicMintSettings caller e p m h =>
    obtain ⟨-, rfl⟩ := setPublicMintSettings_ok h
    exact ⟨le_refl _, fun t ht => ht⟩
  | setRoyaltyInfo caller recipient feeBps h =>
    obtain ⟨-, -, rfl⟩ := setRoyaltyInfo_ok h
    exact ⟨le_refl _, fun t ht => ht⟩
  | withdraw caller h =>
    obtain ⟨-, rfl⟩ := withdraw_ok h
    exact ⟨le_refl _, fun t ht => ht⟩
  | pause caller h =>
    obtain ⟨-, rfl⟩ := pause_ok h
    exact ⟨le_refl _, fun t ht => ht⟩
  | unpause caller h =>
    obtain ⟨-, rfl⟩ := unpause_ok h
    exact ⟨le_refl _, fun t ht => ht⟩
  | transferFrom from_ to_ tokenId h =>
    obtain ⟨-, -, howned, rfl⟩ := transferFrom_ok h
    refine ⟨le_refl _, ?_⟩
    intro t ht
    simp only
    by_cases he : t = tokenId
    · rw [if_pos he]; rfl
    · rw [if_neg he]; exact ht

/-- C1: for every existing token with no per-token override and a
non-empty base URI, `tokenURI` returns
`baseURI ++ decimalString tokenId ++ ".json"` when the JSON-extension flag
is set and `baseURI ++ decimalString tokenId` when it is not. -/
theorem tokenURI_default_rule (s : State) (t : Nat)
    (hex : (s.owners t).isSome = true)
    (hov : s.tokenURIs t = none)
    (hbase : s.baseTokenURI ≠ "") :
    tokenURI s t = .ok (if s.useJsonExtension
      then s.baseTokenURI ++ decimalString t ++ (".json")
      else s.baseTokenURI ++ decimalString t) := by
  have hparent : parentTokenURI s t = s.baseTokenURI ++ decimalString t := by
    simp [parentTokenURI, hov, hbase]
  obtain ⟨a, ha⟩ := Option.isSome_iff_exists.mp hex
  by_cases hj : s.useJsonExtension = true
  · simp [tokenURI, ha, hbase, hparent, hj]
  · simp [tokenURI, ha, hbase, hparent, hj]

/-- Witness for C1, the concrete scenario of the spec: token 1 of the test
deployment resolves to `https://api.test.com/metadata/1.json` with the
flag on, and to `https://api.test.com/metadata/1` after the owner toggles
the flag off. -/
theorem tokenURI_default_rule_witness :
    (testMinted.owners 1).isSome = true ∧ testMinted.tokenURIs 1 = none ∧
      testMinted.baseTokenURI ≠ "" ∧
      tokenURI testMinted 1 = .ok ("https://api.test.com/metadata/1.json") ∧
      tokenURI testToggled 1 = .ok ("https://api.test.com/metadata/1") := by
  refine ⟨rfl, rfl, by decide, ?_, ?_⟩
  · rw [tokenURI_default_rule testMinted 1 rfl rfl (by decide)]
    rfl
  · rw [tokenURI_default_rule testToggled 1 rfl rfl (by decide)]
    rfl

/-- C2 counterexample: with an EMPTY base URI, token 1 existing, the
JSON-extension flag true, and an override equal to
`baseTokenURI ++ decimalString 1`, `tokenURI` returns the override (the
bare decimal string) rather than the flag-based
`baseTokenURI ++ decimalString 1 ++ ".json"` that the claim demands:
the code returns the parent URI before ever comparing it with the derived
string when the base URI is empty. -/
theorem override_equal_derived_counterexample :
    (overrideClashState.owners 1).isSome = true ∧
      overrideClashState.useJsonExtension = true ∧
      overrideClashState.tokenURIs 1 =
        some (overrideClashState.baseTokenURI ++ decimalString 1) ∧
      tokenURI overrideClashState 1 = .ok (decimalString 1) ∧
      decimalString 1 ≠
        overrideClashState.baseTokenURI ++ decimalString 1 ++ (".json") := by
  exact ⟨rfl, rfl, rfl, rfl, by decide⟩

/-- C2 amended: for every existing token whose per-token override equals
`baseTokenURI ++ decimalString tokenId`, with a NON-EMPTY base URI,
`tokenURI` ignores the override and follows the flag-based default rule. -/
theorem override_equal_derived_flag_rule (s : State) (t : Nat)
    (hex : (s.owners t).isSome = true)
    (hbase : s.baseTokenURI ≠ "")
    (hov : s.tokenURIs t = some (s.baseTokenURI ++ decimalString t)) :
    tokenURI s t = .ok (if s.useJsonExtension
      then s.baseTokenURI ++ decimalString t ++ (".json")
      else s.baseTokenURI ++ decimalString t) := by
  have hparent : parentTokenURI s t = s.baseTokenURI ++ decimalString t := by
    simp [parentTokenURI, hov]
  obtain ⟨a, ha⟩ := Option.isSome_iff_exists.mp hex
  by_cases hj : s.useJsonExtension = true
  · simp [tokenURI, ha, hbase, hparent, hj]
  · simp [tokenURI, ha, hbase, hparent, hj]

/-- Witness for the amended C2: a token whose override coincides with the
derived string still resolves by the flag-based rule. -/
theorem override_equal_derived_flag_rule_witness :
    (overrideDerivedState.owners 1).isSome = true ∧
      overrideDerivedState.baseTokenURI ≠ "" ∧
      overrideDerivedState.tokenURIs 1 =
        some (overrideDerivedState.baseTokenURI ++ decimalString 1) ∧
      tokenURI overrideDerivedState 1 = .ok ("https://api.test.com/metadata/1.json") := by
  refine ⟨rfl, by decide, rfl, ?_⟩
  rw [override_equal_derived_flag_rule overrideDerivedState 1 rfl (by decide) rfl]
  rfl

/-- C3: for every existing token with an override different from
`baseTokenURI ++ decimalString tokenId`, `tokenURI` returns the override
verbatim, for every flag value and every base URI. -/
theorem override_returned_verbatim (s : State) (t : Nat) (o : String)
    (hex : (s.owners t).isSome = true)
    (hov : s.tokenURIs t = some o)
    (hne : o ≠ s.baseTokenURI ++ decimalString t) :
    tokenURI s t = .ok (o) := by
  have hparent : parentTokenURI s t = o := by simp [parentTokenURI, hov]
  obtain ⟨a, ha⟩ := Option.isSome_iff_exists.mp hex
  by_cases hbase : s.baseTokenURI = ""
  · simp [tokenURI, ha, hbase, hparent]
  · simp [tokenURI, ha, hbase, hparent, hne]

/-- Witness for C3: a distinct override on token 1 is returned verbatim. -/
theorem override_returned_verbatim_witness :
    (overrideState.owners 1).isSome = true ∧
      overrideState.tokenURIs 1 = some ("ipfs://custom/1.json") ∧
      ("ipfs://custom/1.json" ≠ overrideState.baseTokenURI ++ decimalString 1) ∧
      tokenURI overrideState 1 = .ok ("ipfs://custom/1.json") := by
  exact ⟨rfl, rfl, by decide,
    override_returned_verbatim overrideState 1 ("ipfs://custom/1.json") rfl rfl (by decide)⟩

/-- C4: resolution of a token that does not exist (never minted, id 0, or
any id at or above the next-id counter in a reachable state) fails with
the non-existent-token error, and resolution of an existing token never
fails. -/
theorem tokenURI_notfound (s : State) (t : Nat) :
    (s.owners t = none → tokenURI s t = .error (Err.ERC721NonexistentToken t)) ∧
    ((s.owners t).isSome = true → ∃ u, tokenURI s t = .ok (u)) ∧
    (Reachable s → s.nextTokenId ≤ t →
      tokenURI s t = .error (Err.ERC721NonexistentToken t)) := by
  refine ⟨?_, ?_, ?_⟩
  · intro h
    simp [tokenURI, h]
  · intro h
    obtain ⟨a, ha⟩ := Option.isSome_iff_exists.mp h
    by_cases hbase : s.baseTokenURI = ""
    · exact ⟨parentTokenURI s t, by simp [tokenURI, ha, hbase]⟩
    · by_cases hne : parentTokenURI s t ≠ s.baseTokenURI ++ decimalString t
      · exact ⟨parentTokenURI s t, by simp [tokenURI, ha, hbase, hne]⟩
      · by_cases hj : s.useJsonExtension = true
        · exact ⟨s.baseTokenURI ++ decimalString t ++ (".json"),
            by simp [tokenURI, ha, hbase, hne, hj]⟩
        · exact ⟨s.baseTokenURI ++ decimalString t,
            by simp [tokenURI, ha, hbase, hne, hj]⟩
  · intro hr ht
    have hinv := reachable_inv hr
    have hnone : s.owners t = none := by
      cases ho : s.owners t with
      | none => rfl
      | some a =>
        have := hinv.2.2 t (by rw [ho]; rfl)
        omega
    simp [tokenURI, hnone]

/-- Witness for C4: token 5 of the test deployment (only token 1 minted)
does not resolve; token 1 does. -/
theorem tokenURI_notfound_witness :
    testMinted.owners 5 = none ∧
      tokenURI testMinted 5 = .error (Err.ERC721NonexistentToken 5) ∧
      (testMinted.owners 1).isSome = true ∧ (∃ u, tokenURI testMinted 1 = .ok (u)) := by
  exact ⟨rfl, (tokenURI_notfound testMinted 5).1 rfl, rfl,
    (tokenURI_notfound testMinted 1).2.1 rfl⟩

/-- C5: an existing token with no override and an empty base URI resolves
to the empty string, whatever the flag. -/
theorem tokenURI_empty_base (s : State) (t : Nat)
    (hex : (s.owners t).isSome = true)
    (hov : s.tokenURIs t = none)
    (hbase : s.baseTokenURI = "") :
    tokenURI s t = .ok ("") := by
  obtain ⟨a, ha⟩ := Option.isSome_iff_exists.mp hex
  simp [tokenURI, parentTokenURI, ha, hov, hbase]

/-- Witness for C5: with the base URI cleared, token 1 resolves to the
empty string. -/
theorem tokenURI_empty_base_witness :
    (emptyBaseState.owners 1).isSome = true ∧ emptyBaseState.tokenURIs 1 = none ∧
      emptyBaseState.baseTokenURI = "" ∧ tokenURI emptyBaseState 1 = .ok ("") := by
  exact ⟨rfl, rfl, rfl, tokenURI_empty_base emptyBaseState 1 rfl rfl rfl⟩

/-- C6: `setBaseURI` and `setJsonExtension` revert with the ownable
authorization error for every caller other than the owner, leaving the
state (hence the stored base URI and flag) unchanged; called by the owner
they unconditionally assign the new value, the resulting state differing
from the old one in exactly that field, so every subsequent resolution
reads the new value. -/
theorem setters_authority_gated (s : State) (caller : Address) (b : String) (f : Bool) :
    (caller ≠ s.owner →
      setBaseURI s caller b = .error (Err.OwnableUnauthorizedAccount) ∧
      setJsonExtension s caller f = .error (Err.OwnableUnauthorizedAccount) ∧
      txResult s (setBaseURI s caller b) = s ∧
      txResult s (setJsonExtension s caller f) = s) ∧
    (caller = s.owner →
      setBaseURI s caller b = .ok ({ s with baseTokenURI := b }) ∧
      setJsonExtension s caller f = .ok ({ s with useJsonExtension := f })) := by
  constructor
  · intro h
    refine ⟨?_, ?_, ?_, ?_⟩ <;> simp [setBaseURI, setJsonExtension, txResult, h]
  · intro h
    exact ⟨by simp [setBaseURI, h], by simp [setJsonExtension, h]⟩

/-- Witness for C6: address 2 cannot update the metadata settings of the
test deployment, address 1 (the owner) can. -/
theorem setters_authority_gated_witness :
    (2 : Address) ≠ testDeploy.owner ∧
      setBaseURI testDeploy 2 ("https://hack.com/") =
        .error (Err.OwnableUnauthorizedAccount) ∧
      setJsonExtension testDeploy 2 false = .error (Err.OwnableUnauthorizedAccount) ∧
      (1 : Address) = testDeploy.owner ∧
      setJsonExtension testDeploy 1 false =
        .ok ({ testDeploy with useJsonExtension := false }) := by
  refine ⟨by decide, ?_, ?_, rfl, ?_⟩
  · exact ((setters_authority_gated testDeploy 2 ("https://hack.com/") false).1
      (by decide)).1
  · exact ((setters_authority_gated testDeploy 2 ("https://hack.com/") false).1
      (by decide)).2.1
  · exact ((setters_authority_gated testDeploy 1 ("https://hack.com/") false).2 rfl).2

/-- C7: applying `setBaseURI` with the same argument twice in a row
produces the same state as applying it once, whoever the caller is, so
every subsequent resolution agrees with the single-call state. -/
theorem setBaseURI_idempotent (s : State) (caller : Address) (x : String) :
    txResult (txResult s (setBaseURI s caller x))
        (setBaseURI (txResult s (setBaseURI s caller x)) caller x) =
      txResult s (setBaseURI s caller x) ∧
    ∀ t, tokenURI (txResult (txResult s (setBaseURI s caller x))
        (setBaseURI (txResult s (setBaseURI s caller x)) caller x)) t =
      tokenURI (txResult s (setBaseURI s caller x)) t := by
  have key : txResult (txResult s (setBaseURI s caller x))
      (setBaseURI (txResult s (setBaseURI s caller x)) caller x) =
      txResult s (setBaseURI s caller x) := by
    by_cases h : caller = s.owner
    · simp [setBaseURI, txResult, h]
    · simp [setBaseURI, txResult, h]
  exact ⟨key, fun t => by rw [key]⟩

/-- C10: when the owner calls `setRoyaltyInfo`, the call reverts with
"Royalty fee too high" exactly when the fee exceeds 1000 basis points,
leaving the state unchanged on failure; on success the royalty fields are
assigned and every subsequent `royaltyInfo` query returns the new
recipient and `salePrice * feeBps / 10000`. -/
theorem royalty_settings (s : State) (caller recipient : Address) (feeBps : Nat)
    (hc : caller = s.owner) :
    (1000 < feeBps →
      setRoyaltyInfo s caller recipient feeBps = .error (Err.Msg ("Royalty fee too high")) ∧
      txResult s (setRoyaltyInfo s caller recipient feeBps) = s) ∧
    (feeBps ≤ 1000 →
      setRoyaltyInfo s caller recipient feeBps =
        .ok ({ s with royaltyRecipient := recipient, royaltyFeeBps := feeBps }) ∧
      ∀ tid salePrice, salePrice * feeBps < UINT256_MOD →
        royaltyInfo ({ s with royaltyRecipient := recipient, royaltyFeeBps := feeBps })
            tid salePrice =
          .ok ((recipient, salePrice * feeBps / 10000))) := by
  constructor
  · intro hf
    have hnot : ¬ (feeBps ≤ 1000) := by omega
    constructor <;> simp [setRoyaltyInfo, txResult, hc, hnot]
  · intro hf
    refine ⟨by simp [setRoyaltyInfo, hc, hf], ?_⟩
    intro tid salePrice hsp
    simp [royaltyInfo, Nat.not_le.mpr hsp]

/-- Witness for C10: on the test deployment the owner sets a 5 percent
royalty for address 2, a 10000-wei sale then pays 500 to address 2, and a
1001-basis-point fee is rejected. -/
theorem royalty_settings_witness :
    (1 : Address) = testDeploy.owner ∧ (500 : Nat) ≤ 1000 ∧
      10000 * 500 < UINT256_MOD ∧
      setRoyaltyInfo testDeploy 1 2 500 =
        .ok ({ testDeploy with royaltyRecipient := 2, royaltyFeeBps := 500 }) ∧
      royaltyInfo ({ testDeploy with royaltyRecipient := 2, royaltyFeeBps := 500 })
          7 10000 = .ok ((2, 500)) ∧
      (1000 : Nat) < 1001 ∧
      setRoyaltyInfo testDeploy 1 2 1001 = .error (Err.Msg ("Royalty fee too high")) := by
  refine ⟨rfl, by decide, by decide, ?_, ?_, by decide, ?_⟩
  · exact ((royalty_settings testDeploy 1 2 500 rfl).2 (by decide)).1
  · rw [((royalty_settings testDeploy 1 2 500 rfl).2 (by decide)).2 7 10000 (by decide)]
  · exact ((royalty_settings testDeploy 1 2 1001 rfl).1 (by decide)).1

theorem mintLoop_total {to_ : Address} (q : Nat) :
    ∀ s : State, s.paused = false → to_ ≠ 0 →
      (∀ t, s.nextTokenId ≤ t → (s.owners t).isSome = false) →
      ∃ s', mintLoop to_ q s = Except.ok s' := by
  induction q with
  | zero =>
    intro s _ _ _
    exact ⟨s, rfl⟩
  | succ q ih =>
    intro s hp hz hf
    have hnone : (s.owners s.nextTokenId).isSome = false := hf _ (le_refl _)
    have hsm : safeMint { s with nextTokenId := s.nextTokenId + 1 } to_ s.nextTokenId =
        Except.ok (mintOne s to_) := by
      simp [safeMint, mintOne, hp, hz, hnone]
    have hp2 : (mintOne s to_).paused = false := by simpa [mintOne] using hp
    have hf2 : ∀ t, (mintOne s to_).nextTokenId ≤ t →
        ((mintOne s to_).owners t).isSome = false := by
      intro t ht
      simp only [mintOne] at ht ⊢
      rw [if_neg (by omega)]
      exact hf t (by omega)
    obtain ⟨s', hs'⟩ := ih (mintOne s to_) hp2 hz hf2
    refine ⟨s', ?_⟩
    simp only [mintLoop, hsm]
    exact hs'

/-- C8: token ids are sequential from 1 and never reused: a fresh
deployment has next id 1; in every reachable state every existing token
has an id in `[1, nextTokenId)`; a successful `mint` or `publicMint` of
quantity q assigns exactly the q consecutive ids starting at the old
`nextTokenId` to the recipient, advances the counter by q and touches no
other id; and every transition leaves the counter non-decreasing and
keeps every existing token existing. -/
theorem token_ids_sequential :
    (∀ (d : Address) (n sy : String) (m : Nat) (b : String) (rr : Address) (f : Nat)
      (e : Bool), (deploy d n sy m b rr f e).nextTokenId = 1) ∧
    (∀ s, Reachable s →
      1 ≤ s.nextTokenId ∧ ∀ t, (s.owners t).isSome = true → 1 ≤ t ∧ t < s.nextTokenId) ∧
    (∀ s caller to_ q s', mint s caller to_ q = Except.ok s' →
      s'.nextTokenId = s.nextTokenId + q ∧
      (∀ i, i < q → s'.owners (s.nextTokenId + i) = some to_) ∧
      (∀ t, t < s.nextTokenId ∨ s.nextTokenId + q ≤ t → s'.owners t = s.owners t)) ∧
    (∀ s caller value q s', publicMint s caller value q = Except.ok s' →
      s'.nextTokenId = s.nextTokenId + q ∧
      (∀ i, i < q → s'.owners (s.nextTokenId + i) = some caller) ∧
      (∀ t, t < s.nextTokenId ∨ s.nextTokenId + q ≤ t → s'.owners t = s.owners t)) ∧
    (∀ s s', Step s s' → s.nextTokenId ≤ s'.nextTokenId ∧
      ∀ t, (s.owners t).isSome = true → (s'.owners t).isSome = true) := by
  refine ⟨fun _ _ _ _ _ _ _ _ => rfl, ?_, ?_, ?_, fun s s' h => step_mono h⟩
  · intro s hr
    have h := reachable_inv hr
    exact ⟨h.1, h.2.2⟩
  · intro s caller to_ q s' h
    obtain ⟨-, -, -, -, hml⟩ := mint_ok h
    obtain ⟨hn, hlow, hhigh, hmid, -⟩ := mintLoop_ok q s s' hml
    exact ⟨hn, hmid, fun t ht => ht.elim (hlow t) (hhigh t)⟩
  · intro s caller value q s' h
    obtain ⟨-, -, -, -, -, hn, hlow, hhigh, hmid, -⟩ := publicMint_ok h
    exact ⟨hn, hmid, fun t ht => ht.elim (hlow t) (hhigh t)⟩

/-- Witness for C8: the test deployment is reachable with next id 1, and
an owner mint of 3 tokens gives them ids 1, 2, 3 and advances the counter
to 4. -/
theorem token_ids_sequential_witness :
    Reachable testDeploy ∧ 1 ≤ testDeploy.nextTokenId ∧
      mint testDeploy 1 2 3 = Except.ok (txResult testDeploy (mint testDeploy 1 2 3)) ∧
      (txResult testDeploy (mint testDeploy 1 2 3)).nextTokenId =
        testDeploy.nextTokenId + 3 ∧
      (txResult testDeploy (mint testDeploy 1 2 3)).owners (testDeploy.nextTokenId + 2) =
        some 2 := by
  have hreach : Reachable testDeploy :=
    Reachable.deployed 1 ("Test NFT Collection") ("TNC") 1000
      ("https://api.test.com/metadata/") 1 500 true
  have hok : mint testDeploy 1 2 3 =
      Except.ok (txResult testDeploy (mint testDeploy 1 2 3)) := rfl
  refine ⟨hreach, (token_ids_sequential.2.1 testDeploy hreach).1, hok,
    (token_ids_sequential.2.2.1 testDeploy 1 2 3 _ hok).1, ?_⟩
  exact (token_ids_sequential.2.2.1 testDeploy 1 2 3 _ hok).2.1 2 (by decide)

/-- C9: every reachable state satisfies `totalMinted ≤ maxSupply`; an
owner `mint` (and an enabled, unpaused, positive-quantity `publicMint`)
whose quantity would push the minted count past `maxSupply` reverts with
"Exceeds maximum supply"; a successful mint of either kind re-establishes
the bound; and an owner mint that fits under the cap succeeds from any
reachable unpaused state with a non-zero recipient. -/
theorem supply_cap_invariant :
    (∀ s, Reachable s → totalMinted s ≤ s.maxSupply) ∧
    (∀ s caller to_ q, caller = s.owner → 1 ≤ s.nextTokenId →
      s.nextTokenId + q < UINT256_MOD → s.maxSupply < s.nextTokenId + q - 1 →
      mint s caller to_ q = .error (Err.Msg ("Exceeds maximum supply"))) ∧
    (∀ s caller value q, s.paused = false → s.publicMintEnabled = true → 0 < q →
      s.nextTokenId + q < UINT256_MOD → s.maxSupply < s.nextTokenId + q - 1 →
      publicMint s caller value q = .error (Err.Msg ("Exceeds maximum supply"))) ∧
    (∀ s caller to_ q s', mint s caller to_ q = Except.ok s' →
      totalMinted s' ≤ s'.maxSupply) ∧
    (∀ s caller value q s', publicMint s caller value q = Except.ok s' →
      totalMinted s' ≤ s'.maxSupply) ∧
    (∀ s caller to_ q, Reachable s → caller = s.owner → to_ ≠ 0 → s.paused = false →
      s.nextTokenId + q < UINT256_MOD → s.nextTokenId + q - 1 ≤ s.maxSupply →
      ∃ s', mint s caller to_ q = Except.ok s') := by
  refine ⟨?_, ?_, ?_, ?_, ?_, ?_⟩
  · intro s hr
    have h := reachable_inv hr
    exact h.2.1
  · intro s caller to_ q hc h1 hM hover
    have hz : ¬ (s.nextTokenId + q = 0) := by omega
    have hsup : ¬ (s.nextTokenId + q - 1 ≤ s.maxSupply) := by omega
    simp [mint, hc, Nat.not_le.mpr hM, hz, hsup]
  · intro s caller value q hp he hq hM hover
    have hz : ¬ (s.nextTokenId + q = 0) := by omega
    have hsup : ¬ (s.nextTokenId + q - 1 ≤ s.maxSupply) := by omega
    simp [publicMint, hp, he, hq, Nat.not_le.mpr hM, hz, hsup]
  · intro s caller to_ q s' h
    obtain ⟨-, -, hpos, hsup, hml⟩ := mint_ok h
    obtain ⟨hn, -, -, -, hmax, -⟩ := mintLoop_ok q s s' hml
    simp only [totalMinted]
    omega
  · intro s caller value q s' h
    obtain ⟨-, -, -, -, hsup, hn, -, -, -, hmax, -⟩ := publicMint_ok h
    simp only [totalMinted]
    omega
  · intro s caller to_ q hr hc hto hp hM hsup
    have hinv := reachable_inv hr
    have hfresh : ∀ t, s.nextTokenId ≤ t → (s.owners t).isSome = false := by
      intro t ht
      cases hot : (s.owners t).isSome
      · rfl
      · have := hinv.2.2 t hot
        omega
    obtain ⟨s', hs'⟩ := mintLoop_total q s hp hto hfresh
    refine ⟨s', ?_⟩
    have hz : ¬ (s.nextTokenId + q = 0) := by
      have := hinv.1
      omega
    simpa [mint, hc, Nat.not_le.mpr hM, hz, hsup] using hs'

/-- Witness for C9: the freshly deployed test collection satisfies the
bound, a 2000-token owner mint on a 1000-token collection reverts with
the supply message, and a 3-token owner mint succeeds. -/
theorem supply_cap_invariant_witness :
    Reachable testDeploy ∧ totalMinted testDeploy ≤ testDeploy.maxSupply ∧
      (1 : Address) = testDeploy.owner ∧
      testDeploy.nextTokenId + 2000 < UINT256_MOD ∧
      testDeploy.maxSupply < testDeploy.nextTokenId + 2000 - 1 ∧
      mint testDeploy 1 2 2000 = .error (Err.Msg ("Exceeds maximum supply")) ∧
      (∃ s', mint testDeploy 1 2 3 = Except.ok s') := by
  have hreach : Reachable testDeploy :=
    Reachable.deployed 1 ("Test NFT Collection") ("TNC") 1000
      ("https://api.test.com/metadata/") 1 500 true
  refine ⟨hreach, supply_cap_invariant.1 testDeploy hreach, rfl, by decide, by decide,
    ?_, ?_⟩
  · exact supply_cap_invariant.2.1 testDeploy 1 2 2000 rfl (by decide) (by decide)
      (by decide)
  · exact supply_cap_invariant.2.2.2.2.2 testDeploy 1 2 3 hreach rfl (by decide) rfl
      (by decide) (by decide)

end HyperERC721
